import Mathlib

/-!
Verification of the pgxtls repository (`pool.go`, `config` package).

The Go source is shallowly embedded below.  File contents are `List Nat`
(byte values), configuration strings are `String`.  External collaborators
(the file system, `x509.SystemCertPool`, `x509.ParseCertificate`, the block
ciphers behind `x509.DecryptPEMBlock`, `tls.X509KeyPair`, `pgxpool.ParseConfig`
and `pgxpool.ConnectConfig`, `net.Dial`) are fields of an `Env` record; the
logic of `pool.go` itself, of `encoding/pem`, of `encoding/base64` and of the
non-cipher part of `x509.DecryptPEMBlock` is embedded concretely.
A Go `(value, error)` return is modelled by `GoRes`; a Go runtime panic
(nil-pointer dereference) is the explicit outcome `GoRes.panicked`.
-/

set_option maxRecDepth 20000

/-- Bytes of a string literal: models Go's `[]byte(s)` conversion for the
ASCII data used throughout this development. -/
def strBytes (s : String) : List Nat :=
  s.data.map (fun c => c.toNat)

/-- The base64 standard alphabet as a function from a 6-bit value to the
byte of the character encoding it (models Go `encoding/base64` `encodeStd`). -/
def b64char (n : Nat) : Nat :=
  if n < 26 then 65 + n
  else if n < 52 then 97 + (n - 26)
  else if n < 62 then 48 + (n - 52)
  else if n = 62 then 43
  else 47

/-- Inverse of the base64 standard alphabet (models Go's decode map);
`none` for a byte outside the alphabet. -/
def b64index (c : Nat) : Option Nat :=
  if 65 ≤ c ∧ c ≤ 90 then some (c - 65)
  else if 97 ≤ c ∧ c ≤ 122 then some (26 + (c - 97))
  else if 48 ≤ c ∧ c ≤ 57 then some (52 + (c - 48))
  else if c = 43 then some 62
  else if c = 47 then some 63
  else none

/-- Base64 encoding of a byte list with `=` padding, three input bytes per
four output characters (models Go `base64.StdEncoding.Encode`). -/
def base64Encode : List Nat → List Nat
  | [] => []
  | [a] => [b64char (a / 4), b64char (a % 4 * 16), 61, 61]
  | [a, b] => [b64char (a / 4), b64char (a % 4 * 16 + b / 16), b64char (b % 16 * 4), 61]
  | a :: b :: c :: rest =>
    b64char (a / 4) :: b64char (a % 4 * 16 + b / 16) ::
      b64char (b % 16 * 4 + c / 64) :: b64char (c % 64) :: base64Encode rest

/-- Base64 decoding of a padded, whitespace-free character list, four
characters per quantum, `=` padding allowed only in the final quantum
(models Go `base64.StdEncoding.Decode` on input with newlines removed;
like Go's non-Strict decoder it does not reject nonzero trailing bits). -/
def base64Decode : List Nat → Option (List Nat)
  | [] => some []
  | a :: b :: c :: d :: rest =>
    match b64index a, b64index b with
    | some x, some y =>
      if c = 61 then
        if d = 61 ∧ rest = [] then some [x * 4 + y / 16] else none
      else
        match b64index c with
        | some z =>
          if d = 61 then
            if rest = [] then some [x * 4 + y / 16, y % 16 * 16 + z / 4] else none
          else
            match b64index d, base64Decode rest with
            | some w, some tail =>
              some ([x * 4 + y / 16, y % 16 * 16 + z / 4, z % 4 * 64 + w] ++ tail)
            | _, _ => none
        | none => none
    | _, _ => none
  | _ => none

/-- First index of byte `b` in a list (models Go `bytes.IndexByte`). -/
def indexOfByte (b : Nat) : List Nat → Option Nat
  | [] => none
  | c :: cs => if c = b then some 0 else (indexOfByte b cs).map (· + 1)

/-- First index at which `pat` occurs as a contiguous sublist
(models Go `bytes.Index`). -/
def indexOfSub (pat : List Nat) : List Nat → Option Nat
  | [] => if pat = [] then some 0 else none
  | c :: cs =>
    if pat.isPrefixOf (c :: cs) then some 0
    else (indexOfSub pat cs).map (· + 1)

/-- Space or tab, the cut set of Go `bytes.TrimRight(line, " \t")` used by
`encoding/pem`'s `getLine`. -/
def isSpaceTab (c : Nat) : Bool := c = 32 || c = 9

/-- Trailing spaces and tabs removed (models `bytes.TrimRight(_, " \t")`). -/
def trimRightWS (l : List Nat) : List Nat :=
  (l.reverse.dropWhile isSpaceTab).reverse

/-- ASCII whitespace as recognised by Go `bytes.TrimSpace` on the header
lines handled here. -/
def isGoSpace (c : Nat) : Bool :=
  c = 32 || c = 9 || c = 10 || c = 13 || c = 11 || c = 12

/-- Whitespace removed from both ends (models Go `bytes.TrimSpace`). -/
def trimSpace (l : List Nat) : List Nat :=
  ((l.dropWhile isGoSpace).reverse.dropWhile isGoSpace).reverse

/-- Spaces and tabs removed everywhere (models `encoding/pem`'s
`removeSpacesAndTabs`). -/
def removeSpacesAndTabs (l : List Nat) : List Nat :=
  l.filter (fun c => !isSpaceTab c)

/-- One line split off the front: up to the first newline, with a carriage
return before the newline and trailing spaces/tabs stripped from the line
(models `encoding/pem.getLine`). -/
def getLine (data : List Nat) : List Nat × List Nat :=
  match indexOfByte 10 data with
  | none => (trimRightWS data, [])
  | some i =>
    let line := data.take i
    let line := if line.getLast? = some 13 then line.dropLast else line
    (trimRightWS line, data.drop (i + 1))

/-- A PEM block: type line, headers, decoded payload
(models `encoding/pem.Block`; the Go header map is an association list with
replace-on-duplicate insertion). -/
structure Block where
  type : List Nat
  headers : List (List Nat × List Nat)
  bytes : List Nat
deriving DecidableEq

/-- Insert a header, replacing an existing entry with the same key
(models assignment into the Go `map[string]string`). -/
def putHeader (hs : List (List Nat × List Nat)) (k v : List Nat) :
    List (List Nat × List Nat) :=
  if hs.any (fun p => p.1 = k) then
    hs.map (fun p => if p.1 = k then (k, v) else p)
  else hs ++ [(k, v)]

/-- The bytes of `"-----BEGIN "`. -/
def pemStartTail : List Nat := strBytes ("-----BEGIN ")

/-- The bytes of `"\n-----BEGIN "` (the `pemStart` constant of
`encoding/pem`). -/
def pemStartFull : List Nat := 10 :: pemStartTail

/-- The bytes of `"-----END "`. -/
def pemEndTail : List Nat := strBytes ("-----END ")

/-- The bytes of `"\n-----END "` (the `pemEnd` constant of `encoding/pem`). -/
def pemEndFull : List Nat := 10 :: pemEndTail

/-- The bytes of `"-----"` (the `pemEndOfLine` constant of `encoding/pem`). -/
def dashes5 : List Nat := strBytes ("-----")

/-- The header-line loop of `encoding/pem.Decode`: consume `key: value`
lines until a line without a colon; `none` models the `return nil, data`
taken when the input runs out inside the loop.  The fuel argument is
`rest.length + 1`, enough because every header line consumed is nonempty. -/
def parseHeaders (fuel : Nat) (hs : List (List Nat × List Nat))
    (rest : List Nat) : Option (List (List Nat × List Nat) × List Nat) :=
  match fuel with
  | 0 => none
  | fuel + 1 =>
    if rest.length = 0 then none
    else
      let p := getLine rest
      match indexOfByte 58 p.1 with
      | none => some (hs, rest)
      | some i =>
        let key := trimSpace (p.1.take i)
        let val := trimSpace (p.1.drop (i + 1))
        parseHeaders fuel (putHeader hs key val) p.2

/-- Base64 decoding with carriage returns and newlines skipped, as Go's
base64 decoder does inside `encoding/pem.Decode`. -/
def base64DecodeLoose (s : List Nat) : Option (List Nat) :=
  base64Decode (s.filter (fun c => !(c = 10 || c = 13)))

/-- Result of one attempt of the scanning loop in `encoding/pem.Decode`:
total failure (`return nil, data`), a `continue` carrying the position the
scan resumes from, or a decoded block with the remainder of the input. -/
inductive PemAttempt where
  | hard : PemAttempt
  | soft : List Nat → PemAttempt
  | found : Block → List Nat → PemAttempt

/-- One iteration of `encoding/pem.Decode` after a `-----BEGIN ` marker was
consumed: type line, headers, end-marker search, end-trailer checks and
base64 decoding, exactly in the source's order. -/
def pemAttempt (rest0 : List Nat) : PemAttempt :=
  let tl := getLine rest0
  if ¬ (dashes5.isSuffixOf tl.1) then .soft tl.2
  else
    let ty := tl.1.take (tl.1.length - dashes5.length)
    match parseHeaders (tl.2.length + 1) [] tl.2 with
    | none => .hard
    | some (headers, rest2) =>
      let endPair : Option (Nat × Nat) :=
        if headers.length = 0 ∧ pemEndTail.isPrefixOf rest2 then
          some (0, pemEndFull.length - 1)
        else
          match indexOfSub pemEndFull rest2 with
          | none => none
          | some i => some (i, i + pemEndFull.length)
      match endPair with
      | none => .soft rest2
      | some (endIndex, endTrailerIndex) =>
        let endTrailer := rest2.drop endTrailerIndex
        let endTrailerLen := ty.length + dashes5.length
        if endTrailer.length < endTrailerLen then .soft rest2
        else
          let restOfEndLine := endTrailer.drop endTrailerLen
          let endTrailer2 := endTrailer.take endTrailerLen
          if ¬ (ty.isPrefixOf endTrailer2) ∨ ¬ (dashes5.isSuffixOf endTrailer2) then
            .soft rest2
          else if (getLine restOfEndLine).1.length ≠ 0 then .soft rest2
          else
            match base64DecodeLoose (removeSpacesAndTabs (rest2.take endIndex)) with
            | none => .soft rest2
            | some bs =>
              .found { type := ty, headers := headers, bytes := bs }
                (getLine (rest2.drop (endIndex + pemEndFull.length))).2

/-- The scanning loop of `encoding/pem.Decode`: find a begin marker (at the
very start without the leading newline, otherwise preceded by one), run one
attempt, and on a soft failure resume scanning.  Every iteration consumes at
least the marker, so `data.length + 1` fuel is enough. -/
def pemDecodeLoop (fuel : Nat) (rest : List Nat) : Option (Block × List Nat) :=
  match fuel with
  | 0 => none
  | fuel + 1 =>
    let next? : Option (List Nat) :=
      if pemStartTail.isPrefixOf rest then some (rest.drop pemStartTail.length)
      else
        match indexOfSub pemStartFull rest with
        | none => none
        | some i => some (rest.drop (i + pemStartFull.length))
    match next? with
    | none => none
    | some rest1 =>
      match pemAttempt rest1 with
      | .hard => none
      | .soft r => pemDecodeLoop fuel r
      | .found b r => some (b, r)

/-- Models `encoding/pem.Decode`: the first well-formed PEM block of the
input together with the remainder, or `none` (Go's nil block) when there is
none. -/
def pemDecode (data : List Nat) : Option (Block × List Nat) :=
  pemDecodeLoop (data.length + 1) data

/-- The base64 payload cut into lines of at most 64 characters, each
followed by a newline (models the `lineBreaker` used by
`encoding/pem.Encode` through the chunks it emits). -/
def chunk64 (s : List Nat) : List (List Nat) :=
  if s = [] then []
  else if s.length ≤ 64 then [s]
  else s.take 64 :: chunk64 (s.drop 64)
termination_by s.length
decreasing_by simp_all [List.length_drop]; omega

/-- Chunks joined with a newline after each one. -/
def joinNl (cs : List (List Nat)) : List Nat :=
  cs.foldr (fun c acc => c ++ 10 :: acc) []

/-- The wrapped base64 body emitted by `encoding/pem.Encode`. -/
def wrapLines (s : List Nat) : List Nat := joinNl (chunk64 s)

/-- The `key: value` header lines followed by a blank line, when there are
headers (models the header section written by `encoding/pem.Encode`; the
source of this repository only ever encodes blocks whose header map was
just cleared, so the Proc-Type-first ordering of Go is irrelevant here and
headers are written in list order). -/
def encodeHeaders : List (List Nat × List Nat) → List Nat
  | [] => []
  | hs => (hs.foldr (fun h acc => h.1 ++ strBytes (": ") ++ h.2 ++ 10 :: acc) []) ++ [10]

/-- Models `encoding/pem.EncodeToMemory`: begin line, headers, wrapped
base64 payload, end line. -/
def pemEncodeToMemory (b : Block) : List Nat :=
  pemStartTail ++ b.type ++ dashes5 ++ [10]
    ++ encodeHeaders b.headers
    ++ wrapLines (base64Encode b.bytes)
    ++ pemEndTail ++ b.type ++ dashes5 ++ [10]

/-- Opaque handle for a parsed certificate (`x509.Certificate`); identified
by its DER bytes. -/
abbrev Cert := List Nat

/-- A certificate pool (`x509.CertPool`): the set of added certificates. -/
structure CertPool where
  certs : List Cert
deriving DecidableEq

/-- Models `x509.NewCertPool()`. -/
def newCertPool : CertPool := { certs := [] }

/-- Opaque handle for the structured configuration `pgxpool.ParseConfig`
returns before `pool.go` mutates it. -/
abbrev ParsedCfg := Nat

/-- Opaque handle for a live `pgxpool.Pool`. -/
abbrev Pool := Nat

/-- Opaque handle for a `net.Conn`. -/
abbrev NetConn := Nat

/-- Opaque handle for a `context.Context`. -/
abbrev Ctx := Nat

/-- Opaque handle for the `AfterConnectFunc` callback passed through to the
pool configuration. -/
abbrev AfterConnectFunc := Nat

/-- Opaque handle for a `tls.Certificate` built by `tls.X509KeyPair`. -/
abbrev TLSCert := Nat

/-- The Go errors produced or propagated by `pool.go` and the library calls
it makes, one constructor per source of error. -/
inductive GoErr where
  | io : String → GoErr
  | sysPoolWrap : Bool → GoErr
  | caAppend : GoErr
  | noDekInfo : GoErr
  | malformedDek : GoErr
  | unknownCipher : GoErr
  | hexError : GoErr
  | incorrectIV : GoErr
  | notBlockMultiple : GoErr
  | invalidPadding : GoErr
  | incorrectPassword : GoErr
  | keyPair : GoErr
  | connect : GoErr
  | validation : GoErr
  | external : Nat → GoErr
deriving DecidableEq

/-- A Go `(value, error)` pair together with the possibility of a runtime
panic: exactly one of a value (`ok v`, nil error), an error (`err e`, nil
value) or a panic is produced. -/
inductive GoRes (α : Type) where
  | ok : α → GoRes α
  | err : GoErr → GoRes α
  | panicked : GoRes α
deriving DecidableEq

/-- The external collaborators of `pool.go`, modelled as oracles. -/
structure Env where
  files : String → Option (List Nat)
  systemCertPool : Except GoErr CertPool
  parseCert : List Nat → Option Cert
  cbcDecrypt : List Nat → List Nat → List Nat → List Nat → List Nat
  x509KeyPair : List Nat → List Nat → Except GoErr TLSCert
  parseConfig : String → Except GoErr ParsedCfg
  connectConfig : Nat → Except GoErr Pool
  netDial : String → String → Except GoErr NetConn

/-- The `"DEK-Info"` header key. -/
def dekInfoKey : List Nat := strBytes ("DEK-Info")

/-- First header with the given key (models lookup in the Go header map). -/
def lookupHeader (hs : List (List Nat × List Nat)) (k : List Nat) :
    Option (List Nat) :=
  (hs.find? (fun p => decide (p.1 = k))).map Prod.snd

/-- The legacy RFC 1423 cipher table of `crypto/x509`: cipher name and
block size (models `cipherByName` over `rfc1423Algos`). -/
def rfc1423Ciphers : List (List Nat × Nat) :=
  [(strBytes ("DES-CBC"), 8), (strBytes ("DES-EDE3-CBC"), 8),
   (strBytes ("AES-128-CBC"), 16), (strBytes ("AES-192-CBC"), 16),
   (strBytes ("AES-256-CBC"), 16)]

/-- Cipher-table lookup by name (models `x509.cipherByName`). -/
def cipherByName (name : List Nat) : Option (List Nat × Nat) :=
  rfc1423Ciphers.find? (fun p => decide (p.1 = name))

/-- One hex digit (models `encoding/hex`). -/
def hexDigit (c : Nat) : Option Nat :=
  if 48 ≤ c ∧ c ≤ 57 then some (c - 48)
  else if 97 ≤ c ∧ c ≤ 102 then some (c - 97 + 10)
  else if 65 ≤ c ∧ c ≤ 70 then some (c - 65 + 10)
  else none

/-- Models `hex.DecodeString`: pairs of hex digits, failing on an odd
length or a non-hex byte. -/
def hexDecode : List Nat → Option (List Nat)
  | [] => some []
  | [_] => none
  | a :: b :: rest =>
    match hexDigit a, hexDigit b, hexDecode rest with
    | some x, some y, some tl => some ((x * 16 + y) :: tl)
    | _, _, _ => none

/-- Models `x509.DecryptPEMBlock` on a non-nil block: require the
`DEK-Info` header, split it at the comma into cipher name and hex IV, look
the cipher up, decode and size-check the IV, require the payload to be a
multiple of the block size, CBC-decrypt (the cipher itself is the
`cbcDecrypt` oracle), then perform the source's padding checks, whose
failure is `IncorrectPasswordError`. -/
def decryptPEMBlock (env : Env) (b : Block) (password : List Nat) :
    Except GoErr (List Nat) :=
  match lookupHeader b.headers dekInfoKey with
  | none => .error .noDekInfo
  | some dek =>
    match indexOfByte 44 dek with
    | none => .error .malformedDek
    | some i =>
      let mode := dek.take i
      let hexIV := dek.drop (i + 1)
      match cipherByName mode with
      | none => .error .unknownCipher
      | some ciph =>
        match hexDecode hexIV with
        | none => .error .hexError
        | some iv =>
          if iv.length ≠ ciph.2 then .error .incorrectIV
          else if b.bytes.length % ciph.2 ≠ 0 then .error .notBlockMultiple
          else
            let data := env.cbcDecrypt ciph.1 password iv b.bytes
            let dlen := data.length
            if dlen = 0 ∨ dlen % ciph.2 ≠ 0 then .error .invalidPadding
            else
              let lastB := (data.getLast?).getD 0
              if dlen < lastB then .error .incorrectPassword
              else if lastB = 0 ∨ lastB > ciph.2 then .error .incorrectPassword
              else if ¬ ((data.drop (dlen - lastB)).all (fun v => decide (v = lastB))) then
                .error .incorrectPassword
              else .ok (data.take (dlen - lastB))

/-- Models `withPassphrase` of `pool.go`: read the key and certificate
files, PEM-decode the key file, decrypt the block with the passphrase,
re-encode the plaintext as a header-free PEM block and hand both PEM inputs
to `tls.X509KeyPair`.  The source never checks `pem.Decode` for a nil
block, and `x509.DecryptPEMBlock` dereferences its block argument
immediately, so a key file without a PEM block is a nil-pointer panic. -/
def withPassphrase (env : Env) (pathToCert pathToKey : String)
    (password : List Nat) : GoRes TLSCert :=
  match env.files pathToKey with
  | none => .err (.io pathToKey)
  | some keyFile =>
    match env.files pathToCert with
    | none => .err (.io pathToCert)
    | some certFile =>
      match pemDecode keyFile with
      | none => .panicked
      | some (keyBlock, _) =>
        match decryptPEMBlock env keyBlock password with
        | .error e => .err e
        | .ok keyDER =>
          let keyBlock := { keyBlock with bytes := keyDER, headers := [] }
          match env.x509KeyPair certFile (pemEncodeToMemory keyBlock) with
          | .error e => .err e
          | .ok cert => .ok cert

/-- The loop body of `x509.CertPool.AppendCertsFromPEM`: repeatedly
PEM-decode, skip blocks that are not header-free `CERTIFICATE` blocks or
whose DER bytes do not parse, add the rest, and report whether at least one
certificate was added.  Fuel is the input length plus one; every decoded
block consumes at least its begin marker. -/
def appendLoop (parseCert : List Nat → Option Cert) (fuel : Nat)
    (pool : CertPool) (added : Bool) (pemCerts : List Nat) : CertPool × Bool :=
  match fuel with
  | 0 => (pool, added)
  | fuel + 1 =>
    if pemCerts.length = 0 then (pool, added)
    else
      match pemDecode pemCerts with
      | none => (pool, added)
      | some (block, rest) =>
        if block.type ≠ strBytes ("CERTIFICATE") ∨ block.headers.length ≠ 0 then
          appendLoop parseCert fuel pool added rest
        else
          match parseCert block.bytes with
          | none => appendLoop parseCert fuel pool added rest
          | some cert =>
            appendLoop parseCert fuel { certs := pool.certs ++ [cert] } true rest

/-- Models `x509.CertPool.AppendCertsFromPEM`. -/
def appendCertsFromPEM (parseCert : List Nat → Option Cert) (pool : CertPool)
    (pemCerts : List Nat) : CertPool × Bool :=
  appendLoop parseCert (pemCerts.length + 1) pool false pemCerts

/-- Models `config.ConfigMap` (the `config` package of this repository). -/
structure ConfigMap where
  DbName : String
  DbHost : String
  DbUser : String
  Password : String
  SSLMode : String
  SSLCertFile : String
  SSLKeyFile : String
  SSLKeyFilePassPhrase : String
  SSLCAFile : String
  SSLHostname : String
  ServerPort : Nat
  DbPort : Nat
  MaxConns : Nat
deriving DecidableEq

/-- The struct tags of `config.ConfigMap` exactly as written in the source:
field name, tag key, tag value.  Every field is tagged with key
`validate` and value `required`. -/
def configMapTags : List (String × String × String) :=
  [("DbName", "validate", "required"), ("DbHost", "validate", "required"),
   ("DbUser", "validate", "required"), ("Password", "validate", "required"),
   ("SSLMode", "validate", "required"), ("SSLCertFile", "validate", "required"),
   ("SSLKeyFile", "validate", "required"),
   ("SSLKeyFilePassPhrase", "validate", "required"),
   ("SSLCAFile", "validate", "required"), ("SSLHostname", "validate", "required"),
   ("ServerPort", "validate", "required"), ("DbPort", "validate", "required"),
   ("MaxConns", "validate", "required")]

/-- The struct-tag key the govalidator library actually reads:
`govalidator.ValidateStruct` fetches `reflect.StructTag.Get("valid")` for
each field and ignores every other tag key. -/
def govalidatorTagKey : String := "valid"

/-- Whether a field of the descriptor is present (nonempty string /
nonzero number), govalidator's notion of `required` being satisfied. -/
def fieldPresent (c : ConfigMap) (name : String) : Bool :=
  if name = "DbName" then c.DbName ≠ ""
  else if name = "DbHost" then c.DbHost ≠ ""
  else if name = "DbUser" then c.DbUser ≠ ""
  else if name = "Password" then c.Password ≠ ""
  else if name = "SSLMode" then c.SSLMode ≠ ""
  else if name = "SSLCertFile" then c.SSLCertFile ≠ ""
  else if name = "SSLKeyFile" then c.SSLKeyFile ≠ ""
  else if name = "SSLKeyFilePassPhrase" then c.SSLKeyFilePassPhrase ≠ ""
  else if name = "SSLCAFile" then c.SSLCAFile ≠ ""
  else if name = "SSLHostname" then c.SSLHostname ≠ ""
  else if name = "ServerPort" then c.ServerPort ≠ 0
  else if name = "DbPort" then c.DbPort ≠ 0
  else if name = "MaxConns" then c.MaxConns ≠ 0
  else true

/-- The fields `govalidator.ValidateStruct` will actually require: those
whose tag with key `valid` has value `required`.  With the source's tags
(key `validate`) this list is empty. -/
def activeRequiredFields : List String :=
  configMapTags.filterMap
    (fun t => if t.2.1 = govalidatorTagKey ∧ t.2.2 = "required" then some t.1 else none)

/-- Models `(*config.ConfigMap).validate`, i.e.
`govalidator.ValidateStruct(c)`: an error when a field required through a
`valid` tag is absent, `none` (nil error) otherwise. -/
def ConfigMap.validate (c : ConfigMap) : Option GoErr :=
  if activeRequiredFields.all (fun n => fieldPresent c n) then none
  else some .validation

/-- Models the `fmt.Sprintf` building the connection URI in
`NewFromCfgMap`. -/
def connString (c : ConfigMap) : String :=
  "postgres://" ++ c.DbUser ++ ":" ++ c.Password ++ "@" ++ c.DbHost ++ ":"
    ++ toString c.DbPort ++ "/" ++ c.DbName ++ "?sslmode=" ++ c.SSLMode
    ++ "&pool_max_conns=" ++ toString c.MaxConns

/-- The `tls.Config` assembled by `NewFromCfgMap`; fields not set by the
source keep Go's zero values. -/
structure TLSConfigRec where
  certificates : List TLSCert
  rootCAs : Option CertPool
  serverName : String := ""
  insecureSkipVerify : Bool := false
deriving DecidableEq

/-- The pool configuration assembled by `NewFromCfgMap` before
`pgxpool.ConnectConfig` is called: the parsed base configuration plus every
field the source mutates. -/
structure PoolConfig where
  parsed : ParsedCfg
  afterConnect : AfterConnectFunc
  dialFunc : Ctx → String → String → Except GoErr NetConn
  preferSimpleProtocol : Bool
  connectTimeout : Nat
  tlsConfig : Option TLSConfigRec

/-- `time.Minute` in nanoseconds, the fixed connect timeout. -/
def timeMinute : Nat := 60000000000

/-- The configuration-assembly phase of `NewFromCfgMap` (`pool.go`), in
source order: build the URI, parse it, install the after-connect hook, the
context-ignoring dial function, the simple-protocol preference and the
one-minute timeout, then the trust store (note the source returns
unconditionally after `x509.SystemCertPool()`, wrapping the possibly nil
error), then the client identity, then the TLS configuration with the
hostname-verification policy. -/
def assembleConfig (env : Env) (config : ConfigMap) (fn : AfterConnectFunc) :
    GoRes PoolConfig :=
  match env.parseConfig (connString config) with
  | .error e => .err e
  | .ok parsed =>
    if config.SSLCAFile = "" then
      .err (.sysPoolWrap (match env.systemCertPool with
        | .ok _ => false
        | .error _ => true))
    else
      match env.files config.SSLCAFile with
      | none => .err (.io config.SSLCAFile)
      | some caCert =>
        if ¬ (appendCertsFromPEM env.parseCert newCertPool caCert).2 then
          .err .caAppend
        else
          match withPassphrase env config.SSLCertFile config.SSLKeyFile
              (strBytes config.SSLKeyFilePassPhrase) with
          | .panicked => .panicked
          | .err e => .err e
          | .ok cert =>
            .ok { parsed := parsed, afterConnect := fn,
                  dialFunc := fun _ host addr => env.netDial host addr,
                  preferSimpleProtocol := true, connectTimeout := timeMinute,
                  tlsConfig := some (
                    if config.SSLHostname ≠ "" then
                      { certificates := [cert],
                        rootCAs := some (appendCertsFromPEM env.parseCert newCertPool caCert).1,
                        serverName := config.SSLHostname }
                    else
                      { certificates := [cert],
                        rootCAs := some (appendCertsFromPEM env.parseCert newCertPool caCert).1,
                        insecureSkipVerify := true }) }

/-- Models `NewFromCfgMap` of `pool.go`: assemble the configuration, then
open the pool with `pgxpool.ConnectConfig`; every error returns
immediately with a nil pool. -/
def NewFromCfgMap (env : Env) (config : ConfigMap) (fn : AfterConnectFunc) :
    GoRes Pool :=
  match assembleConfig env config fn with
  | .panicked => .panicked
  | .err e => .err e
  | .ok cfg =>
    match env.connectConfig cfg.parsed with
    | .error e => .err e
    | .ok p => .ok p

/-- A fixed after-connect hook handle for concrete runs. -/
def fn0 : AfterConnectFunc := 0

/-- A CA bundle file with one header-free `CERTIFICATE` block whose payload
is three zero bytes. -/
def caPemBytes : List Nat :=
  strBytes ("-----BEGIN CERTIFICATE-----\nAAAA\n-----END CERTIFICATE-----\n")

/-- An encrypted key file: one PEM block of type `X` with a `DEK-Info`
header naming `DES-CBC` and an eight-byte IV, payload eight zero bytes. -/
def keyPemEncBytes : List Nat :=
  strBytes ("-----BEGIN X-----\nDEK-Info: DES-CBC,0102030405060708\n\nAAAAAAAAAAA=\n-----END X-----\n")

/-- An unencrypted key file: one PEM block with no headers at all. -/
def keyPemPlainBytes : List Nat :=
  strBytes ("-----BEGIN X-----\nAAAA\n-----END X-----\n")

/-- A key file containing no PEM block. -/
def junkKeyBytes : List Nat := strBytes ("no pem here")

/-- A client-certificate file; its contents only flow into the
`tls.X509KeyPair` oracle. -/
def certFileBytes : List Nat := strBytes ("client certificate bytes")

/-- A base environment: no files, no system pool, failing oracles. -/
def env0 : Env where
  files := fun _ => none
  systemCertPool := .error (.external 0)
  parseCert := fun _ => none
  cbcDecrypt := fun _ _ _ _ => []
  x509KeyPair := fun _ _ => .error .keyPair
  parseConfig := fun _ => .ok 0
  connectConfig := fun _ => .ok 0
  netDial := fun _ _ => .ok 0

/-- A file system holding the CA bundle, the client certificate and the
given key file. -/
def filesWithKey (key : List Nat) : String → Option (List Nat) :=
  fun p =>
    if p = "ca.pem" then some caPemBytes
    else if p = "key.pem" then some key
    else if p = "cert.pem" then some certFileBytes
    else none

/-- An environment in which every step of `NewFromCfgMap` succeeds: the
cipher oracle returns a correctly padded plaintext (seven content bytes and
one byte of padding) and `tls.X509KeyPair` accepts the pair. -/
def happyEnv : Env := { env0 with
  files := filesWithKey keyPemEncBytes
  parseCert := fun b => some b
  cbcDecrypt := fun _ _ _ _ => [7, 7, 7, 7, 7, 7, 7, 1]
  x509KeyPair := fun _ _ => .ok 42 }

/-- A descriptor with every field present and an expected server
hostname. -/
def cfgHost : ConfigMap where
  DbName := "db"
  DbHost := "h"
  DbUser := "u"
  Password := "p"
  SSLMode := "verify-full"
  SSLCertFile := "cert.pem"
  SSLKeyFile := "key.pem"
  SSLKeyFilePassPhrase := "pw"
  SSLCAFile := "ca.pem"
  SSLHostname := "db.example.com"
  ServerPort := 1
  DbPort := 5432
  MaxConns := 10

/-- The same descriptor with an empty CA path. -/
def cfgEmptyCA : ConfigMap := { cfgHost with SSLCAFile := "" }

/-- An environment whose system trust store is available. -/
def envSysPoolOk : Env := { happyEnv with systemCertPool := .ok newCertPool }

/-- The happy environment with a key file containing no PEM block. -/
def envNoPemKey : Env := { happyEnv with files := filesWithKey junkKeyBytes }

/-- The happy environment with a cipher oracle whose output fails the
padding check, as decryption under a wrong passphrase does. -/
def envWrongPw : Env :=
  { happyEnv with cbcDecrypt := fun _ _ _ _ => [9, 9, 9, 9, 9, 9, 9, 9] }

/-- The happy environment with an unencrypted key file. -/
def envPlainKey : Env := { happyEnv with files := filesWithKey keyPemPlainBytes }

/-- A descriptor missing its database name but complete otherwise. -/
def cfgMissingDbName : ConfigMap := { cfgHost with DbName := "" }

/-- The TLS configuration `NewFromCfgMap` assembles in `happyEnv` for
`cfgHost`. -/
def happyTLS : TLSConfigRec where
  certificates := [42]
  rootCAs := some { certs := [[0, 0, 0]] }
  serverName := "db.example.com"
  insecureSkipVerify := false

/-- The pool configuration `NewFromCfgMap` assembles in `happyEnv` for
`cfgHost`. -/
def happyCfg : PoolConfig where
  parsed := 0
  afterConnect := fn0
  dialFunc := fun _ host addr => happyEnv.netDial host addr
  preferSimpleProtocol := true
  connectTimeout := timeMinute
  tlsConfig := some happyTLS

/-- Characters that can appear in a base64 payload line: no whitespace, no
newline or carriage return, no dash, no colon. -/
abbrev goodB64 (c : Nat) : Prop :=
  c ≠ 9 ∧ c ≠ 10 ∧ c ≠ 13 ∧ c ≠ 32 ∧ c ≠ 45 ∧ c ≠ 58

/-- `isPrefixOf` holds of a list and itself followed by anything. -/
theorem isPrefixOf_self_append (p t : List Nat) : p.isPrefixOf (p ++ t) = true := by
  induction p with
  | nil => simp [List.isPrefixOf]
  | cons a as ih => simp [List.isPrefixOf, ih]

/-- `isPrefixOf` fails when the heads differ. -/
theorem isPrefixOf_cons_ne {a b : Nat} (as bs : List Nat) (h : a ≠ b) :
    (a :: as).isPrefixOf (b :: bs) = false := by
  simp [List.isPrefixOf, h]

/-- `isSuffixOf` holds of a list and anything followed by itself. -/
theorem isSuffixOf_append_self (t p : List Nat) : p.isSuffixOf (t ++ p) = true := by
  simp [List.isSuffixOf, List.reverse_append, isPrefixOf_self_append]

/-- `indexOfByte` misses when the byte does not occur. -/
theorem indexOfByte_eq_none {b : Nat} {l : List Nat} (h : ∀ x ∈ l, x ≠ b) :
    indexOfByte b l = none := by
  induction l with
  | nil => rfl
  | cons c cs ih =>
    simp [indexOfByte, h c (by simp), ih (fun x hx => h x (by simp [hx]))]

/-- `indexOfByte` finds the first occurrence just after a clean prefix. -/
theorem indexOfByte_append_cons {b : Nat} {l : List Nat} (r : List Nat)
    (h : b ∉ l) : indexOfByte b (l ++ b :: r) = some l.length := by
  induction l with
  | nil => simp [indexOfByte]
  | cons c cs ih =>
    have hc : ¬ (c = b) := fun e => h (e ▸ List.mem_cons_self c cs)
    rw [List.cons_append]
    simp [indexOfByte, hc, ih (fun hb => h (List.mem_cons_of_mem _ hb))]

/-- Trimming trailing whitespace is the identity when the last character is
not whitespace. -/
theorem trimRightWS_eq_self {l : List Nat}
    (h : ∀ x, l.getLast? = some x → isSpaceTab x = false) :
    trimRightWS l = l := by
  induction l using List.reverseRecOn with
  | nil => rfl
  | append_singleton xs x _ =>
    have hx : isSpaceTab x = false := h x (by simp)
    simp [trimRightWS, List.dropWhile, hx]

/-- `getLine` splits a newline-terminated line off cleanly when the line
has no newline, no trailing carriage return and no trailing whitespace. -/
theorem getLine_append {l : List Nat} (r : List Nat) (h10 : 10 ∉ l)
    (h13 : l.getLast? ≠ some 13) (htrim : trimRightWS l = l) :
    getLine (l ++ 10 :: r) = (l, r) := by
  unfold getLine
  rw [indexOfByte_append_cons r h10]
  simp only [List.take_left, if_neg h13, htrim]
  rw [show l.length + 1 = l.length + 1 from rfl, List.drop_append 1]
  rfl

/-- The remainder of `getLine` on input ending in its only newline is
empty. -/
theorem getLine_snd_last {l : List Nat} (h10 : 10 ∉ l) :
    (getLine (l ++ [10])).2 = [] := by
  unfold getLine
  rw [show l ++ [10] = l ++ 10 :: [] from rfl, indexOfByte_append_cons [] h10]
  simp [List.drop_append 1]

/-- A sublist search whose pattern starts with a newline skips over any
newline-free prefix. -/
theorem indexOfSub_append_left {q c : List Nat} (r : List Nat) (h : 10 ∉ c) :
    indexOfSub (10 :: q) (c ++ r) =
      (indexOfSub (10 :: q) r).map (fun i => c.length + i) := by
  induction c with
  | nil => simp
  | cons x cs ih =>
    have hx : (10 : Nat) ≠ x := fun e => h (by simp [e.symm])
    rw [List.cons_append, indexOfSub, if_neg (by simp [isPrefixOf_cons_ne _ _ hx]),
      ih (fun hb => h (List.mem_cons_of_mem _ hb)), Option.map_map]
    congr 1
    funext i
    simp [Function.comp]
    omega

/-- The base64 alphabet map and its inverse cancel on six-bit values. -/
theorem b64index_b64char : ∀ n, n < 64 → b64index (b64char n) = some n := by
  decide

/-- Alphabet characters avoid padding, whitespace, newlines, dashes and
colons, and are bytes. -/
theorem b64char_props :
    ∀ n, n < 64 → b64char n ≠ 61 ∧ goodB64 (b64char n) ∧ b64char n < 256 := by
  decide

/-- The alphabet function lands in one of the alphabet ranges for every
argument. -/
theorem b64char_range (n : Nat) :
    (65 ≤ b64char n ∧ b64char n ≤ 90) ∨ (97 ≤ b64char n ∧ b64char n ≤ 122) ∨
    (48 ≤ b64char n ∧ b64char n ≤ 57) ∨ b64char n = 43 ∨ b64char n = 47 := by
  unfold b64char
  split
  · left; omega
  · split
    · right; left; omega
    · split
      · right; right; left; omega
      · split
        · right; right; right; left; rfl
        · right; right; right; right; rfl

/-- Every character emitted by `base64Encode` is the padding character or
an alphabet character. -/
theorem base64Encode_mem (D : List Nat) :
    ∀ x ∈ base64Encode D, x = 61 ∨ ∃ n, x = b64char n := by
  induction D using base64Encode.induct with
  | case1 => intro x hx; simp [base64Encode] at hx
  | case2 a =>
    intro x hx
    simp only [base64Encode, List.mem_cons, List.not_mem_nil, or_false] at hx
    rcases hx with h | h | h | h
    · exact Or.inr ⟨a / 4, h⟩
    · exact Or.inr ⟨a % 4 * 16, h⟩
    · exact Or.inl h
    · exact Or.inl h
  | case3 a b =>
    intro x hx
    simp only [base64Encode, List.mem_cons, List.not_mem_nil, or_false] at hx
    rcases hx with h | h | h | h
    · exact Or.inr ⟨a / 4, h⟩
    · exact Or.inr ⟨a % 4 * 16 + b / 16, h⟩
    · exact Or.inr ⟨b % 16 * 4, h⟩
    · exact Or.inl h
  | case4 a b c rest ih =>
    intro x hx
    simp only [base64Encode, List.mem_cons] at hx
    rcases hx with h | h | h | h | h
    · exact Or.inr ⟨a / 4, h⟩
    · exact Or.inr ⟨a % 4 * 16 + b / 16, h⟩
    · exact Or.inr ⟨b % 16 * 4 + c / 64, h⟩
    · exact Or.inr ⟨c % 64, h⟩
    · exact ih x h

/-- Every character emitted by `base64Encode` is a payload-line
character. -/
theorem base64Encode_good {D : List Nat} {x : Nat} (hx : x ∈ base64Encode D) :
    goodB64 x := by
  rcases base64Encode_mem D x hx with h | ⟨n, h⟩
  · subst h; exact ⟨by omega, by omega, by omega, by omega, by omega, by omega⟩
  · subst h
    rcases b64char_range n with h | h | h | h | h <;>
      exact ⟨by omega, by omega, by omega, by omega, by omega, by omega⟩

/-- Encoding a nonempty byte list yields a nonempty character list. -/
theorem base64Encode_ne_nil {D : List Nat} (h : D ≠ []) :
    base64Encode D ≠ [] := by
  match D with
  | [] => exact absurd rfl h
  | [a] => simp [base64Encode]
  | [a, b] => simp [base64Encode]
  | a :: b :: c :: rest => simp [base64Encode]

/-- Decoding after encoding recovers exactly the original bytes. -/
theorem base64_roundtrip (D : List Nat) (h : ∀ b ∈ D, b < 256) :
    base64Decode (base64Encode D) = some D := by
  induction D using base64Encode.induct with
  | case1 => rfl
  | case2 a =>
    have ha : a < 256 := h a (by simp)
    have h1 := b64index_b64char (a / 4) (by omega)
    have h2 := b64index_b64char (a % 4 * 16) (by omega)
    have e1 : a % 4 * 16 / 16 = a % 4 := by omega
    have e2 : a / 4 * 4 + a % 4 = a := by omega
    simp only [base64Encode, base64Decode, h1, h2, e1, e2]
    simp
  | case3 a b =>
    have ha : a < 256 := h a (by simp)
    have hb : b < 256 := h b (by simp)
    have h1 := b64index_b64char (a / 4) (by omega)
    have h2 := b64index_b64char (a % 4 * 16 + b / 16) (by omega)
    have h3 := b64index_b64char (b % 16 * 4) (by omega)
    have hne : ¬ (b64char (b % 16 * 4) = 61) := (b64char_props _ (by omega)).1
    have e1 : (a % 4 * 16 + b / 16) / 16 = a % 4 := by omega
    have e2 : (a % 4 * 16 + b / 16) % 16 = b / 16 := by omega
    have e3 : b % 16 * 4 / 4 = b % 16 := by omega
    have e4 : a / 4 * 4 + a % 4 = a := by omega
    simp only [base64Encode, base64Decode, h1, h2, h3, if_neg hne, e1, e2, e3, e4]
    have e5 : b / 16 * 16 + b % 16 = b := by omega
    simp [e5]
  | case4 a b c rest ih =>
    have ha : a < 256 := h a (by simp)
    have hb : b < 256 := h b (by simp)
    have hc : c < 256 := h c (by simp)
    have h1 := b64index_b64char (a / 4) (by omega)
    have h2 := b64index_b64char (a % 4 * 16 + b / 16) (by omega)
    have h3 := b64index_b64char (b % 16 * 4 + c / 64) (by omega)
    have h4 := b64index_b64char (c % 64) (by omega)
    have hne3 : ¬ (b64char (b % 16 * 4 + c / 64) = 61) := (b64char_props _ (by omega)).1
    have hne4 : ¬ (b64char (c % 64) = 61) := (b64char_props _ (by omega)).1
    have ihr := ih (fun x hx => h x (by simp [hx]))
    have e1 : (a % 4 * 16 + b / 16) / 16 = a % 4 := by omega
    have e2 : (a % 4 * 16 + b / 16) % 16 = b / 16 := by omega
    have e3 : (b % 16 * 4 + c / 64) / 4 = b % 16 := by omega
    have e4 : (b % 16 * 4 + c / 64) % 4 = c / 64 := by omega
    have e5 : a / 4 * 4 + a % 4 = a := by omega
    simp only [base64Encode, base64Decode, h1, h2, h3, h4, if_neg hne3, if_neg hne4,
      ihr, e1, e2, e3, e4, e5]
    have e6 : b / 16 * 16 + b % 16 = b := by omega
    have e7 : c / 64 * 64 + c % 64 = c := by omega
    simp [e6, e7]

/-- Rejoining the 64-character chunks restores the payload. -/
theorem chunk64_join (s : List Nat) : (chunk64 s).foldr (· ++ ·) [] = s := by
  induction s using chunk64.induct with
  | case1 => rw [chunk64]; simp
  | case2 s h1 h2 => rw [chunk64]; simp [h1, h2]
  | case3 s h1 h2 ih => rw [chunk64]; simp [h1, h2, ih]

/-- Every chunk is nonempty and draws its characters from the payload. -/
theorem chunk64_mem (s : List Nat) :
    ∀ c ∈ chunk64 s, c ≠ [] ∧ ∀ x ∈ c, x ∈ s := by
  induction s using chunk64.induct with
  | case1 => rw [chunk64]; simp
  | case2 s h1 h2 =>
    rw [chunk64, if_neg h1, if_pos h2]
    intro c hc
    rw [List.mem_singleton] at hc
    subst hc
    exact ⟨h1, fun x hx => hx⟩
  | case3 s h1 h2 ih =>
    rw [chunk64, if_neg h1, if_neg h2]
    intro c hc
    rcases List.mem_cons.1 hc with hc | hc
    · subst hc
      constructor
      · intro he
        have hl := congrArg List.length he
        rw [List.length_take] at hl
        simp only [List.length_nil] at hl
        omega
      · intro x hx
        exact List.take_subset 64 s hx
    · obtain ⟨hne, hsub⟩ := ih c hc
      exact ⟨hne, fun x hx => List.drop_subset 64 s (hsub x hx)⟩

/-- A nonempty payload produces at least one chunk. -/
theorem chunk64_ne_nil {s : List Nat} (h : s ≠ []) : chunk64 s ≠ [] := by
  rw [chunk64, if_neg h]
  split <;> simp

/-- Payload-line characters survive the whitespace and newline filters of
the decoder. -/
theorem keep_of_good {x : Nat} (h : goodB64 x) :
    ((!(x = 10 || x = 13)) && (!isSpaceTab x)) = true := by
  obtain ⟨h9, h10, h13, h32, _, _⟩ := h
  simp [isSpaceTab, h9, h10, h13, h32]

/-- `pemEndTail` in head-tail form. -/
theorem pemEndTail_cons : pemEndTail = 45 :: strBytes ("----END ") := rfl

/-- Decomposition of a joined chunk list: it is some `K` followed by a
final newline, where `K` filters back to the concatenated chunks, starts
with a non-dash character, and the first occurrence of the `\n-----END `
marker after appending it to an end line is exactly at the final newline. -/
theorem joinNl_decomp :
    ∀ (cs : List (List Nat)), cs ≠ [] →
      (∀ c ∈ cs, c ≠ [] ∧ ∀ x ∈ c, goodB64 x) →
      ∃ K, joinNl cs = K ++ [10] ∧
        (K.filter (fun a => (!(a = 10 || a = 13)) && (!isSpaceTab a))) =
          cs.foldr (· ++ ·) [] ∧
        (∃ y K2, K = y :: K2 ∧ y ≠ 45) ∧
        ∀ X, pemEndTail.isPrefixOf X = true →
          indexOfSub pemEndFull (K ++ 10 :: X) = some K.length := by
  intro cs
  induction cs with
  | nil => intro h; exact absurd rfl h
  | cons c cs ih =>
    intro _ hgood
    obtain ⟨hcne, hcgood⟩ := hgood c (List.mem_cons_self c cs)
    have h10c : 10 ∉ c := fun hm => (hcgood 10 hm).2.1 rfl
    cases cs with
    | nil =>
      refine ⟨c, ?_, ?_, ?_, ?_⟩
      · simp [joinNl]
      · rw [List.filter_eq_self.2 (fun x hx => keep_of_good (hcgood x hx))]
        simp
      · obtain ⟨y, c', rfl⟩ := List.exists_cons_of_ne_nil hcne
        exact ⟨y, c', rfl, fun e => (hcgood y (by simp)).2.2.2.2.1 e⟩
      · intro X hX
        rw [show pemEndFull = 10 :: pemEndTail from rfl,
          indexOfSub_append_left (10 :: X) h10c]
        rw [indexOfSub, if_pos (by simp [List.isPrefixOf, hX])]
        simp
    | cons c2 cs2 =>
      obtain ⟨K1, hK1join, hK1filt, ⟨y1, K1', hK1head, hy1⟩, hK1idx⟩ :=
        ih (by simp) (fun d hd => hgood d (List.mem_cons_of_mem c hd))
      refine ⟨c ++ 10 :: K1, ?_, ?_, ?_, ?_⟩
      · show c ++ 10 :: joinNl (c2 :: cs2) = (c ++ 10 :: K1) ++ [10]
        rw [hK1join]
        simp
      · rw [List.filter_append,
          List.filter_eq_self.2 (fun x hx => keep_of_good (hcgood x hx)),
          List.filter_cons, if_neg (by decide), hK1filt]
        rfl
      · obtain ⟨y, c', rfl⟩ := List.exists_cons_of_ne_nil hcne
        exact ⟨y, c' ++ 10 :: K1, rfl, fun e => (hcgood y (by simp)).2.2.2.2.1 e⟩
      · intro X hX
        rw [List.append_assoc, List.cons_append,
          show pemEndFull = 10 :: pemEndTail from rfl,
          indexOfSub_append_left _ h10c]
        rw [indexOfSub, if_neg (by
          rw [hK1head, List.cons_append, pemEndTail_cons]
          simp [List.isPrefixOf, Ne.symm hy1])]
        rw [show (10 : Nat) :: pemEndTail = pemEndFull from rfl, hK1idx X hX]
        simp

theorem parseHeaders_break (fuel : Nat) {rest : List Nat} (hne : ¬ (rest.length = 0))
    (h58 : ∀ x ∈ (getLine rest).1, x ≠ 58) :
    parseHeaders (fuel + 1) [] rest = some ([], rest) := by
  rw [parseHeaders]
  simp only [if_neg hne, indexOfByte_eq_none h58]

theorem pemEndTail_len : pemEndTail.length = 9 := rfl

theorem pemEndFull_len : pemEndFull.length = 10 := rfl

theorem dashes5_len : dashes5.length = 5 := rfl

theorem pemAttempt_encode_pos (ty data : List Nat) (hty10 : 10 ∉ ty)
    (hdata : ∀ b ∈ data, b < 256) (hne : data ≠ []) :
    pemAttempt (ty ++ dashes5 ++ 10 :: (wrapLines (base64Encode data)
        ++ (pemEndTail ++ ty ++ dashes5 ++ [10]))) =
      .found { type := ty, headers := [], bytes := data } [] := by
  have hl10 : 10 ∉ ty ++ dashes5 := by
    intro hm
    rcases List.mem_append.1 hm with hm | hm
    · exact hty10 hm
    · revert hm; decide
  have hlast : (ty ++ dashes5).getLast? = some 45 := by
    rw [List.getLast?_append_of_ne_nil _ (by decide)]
    decide
  have h13 : ¬ ((ty ++ dashes5).getLast? = some 13) := by rw [hlast]; decide
  have htrim : trimRightWS (ty ++ dashes5) = ty ++ dashes5 :=
    trimRightWS_eq_self (fun x hx => by
      rw [hlast] at hx
      cases hx
      decide)
  have hgl := getLine_append (r := wrapLines (base64Encode data)
      ++ (pemEndTail ++ ty ++ dashes5 ++ [10])) hl10 h13 htrim
  rw [pemAttempt]
  rw [show ty ++ dashes5 ++ 10 :: (wrapLines (base64Encode data)
        ++ (pemEndTail ++ ty ++ dashes5 ++ [10]))
      = (ty ++ dashes5) ++ 10 :: (wrapLines (base64Encode data)
        ++ (pemEndTail ++ ty ++ dashes5 ++ [10])) by simp]
  rw [hgl]
  simp only [isSuffixOf_append_self, not_true]
  rw [if_neg (by simp)]
  have hty_take : List.take ((ty ++ dashes5).length - dashes5.length) (ty ++ dashes5) = ty :=
    List.take_left' (by simp [List.length_append, dashes5_len])
  rw [hty_take]
  -- decompose the wrapped base64 body
  have hb64ne : base64Encode data ≠ [] := base64Encode_ne_nil hne
  have hcsne : chunk64 (base64Encode data) ≠ [] := chunk64_ne_nil hb64ne
  have hcsgood : ∀ c ∈ chunk64 (base64Encode data), c ≠ [] ∧ ∀ x ∈ c, goodB64 x := by
    intro c hc
    obtain ⟨hne2, hsub⟩ := chunk64_mem _ c hc
    exact ⟨hne2, fun x hx => base64Encode_good (hsub x hx)⟩
  obtain ⟨K, hKjoin, hKfilt, ⟨y, K2, hKhead, hy⟩, hKidx⟩ :=
    joinNl_decomp _ hcsne hcsgood
  have hW : wrapLines (base64Encode data) = K ++ [10] := hKjoin
  obtain ⟨c1, cs1, hcs⟩ := List.exists_cons_of_ne_nil hcsne
  obtain ⟨hc1ne, hc1good⟩ := hcsgood c1 (by rw [hcs]; simp)
  have hc1last : ∃ z, c1.getLast? = some z ∧ z ∈ c1 :=
    ⟨c1.getLast hc1ne, List.getLast?_eq_getLast c1 hc1ne, List.getLast_mem hc1ne⟩
  obtain ⟨z, hz, hzmem⟩ := hc1last
  have hzg := hc1good z hzmem
  have hgl2 : getLine (wrapLines (base64Encode data)
      ++ (pemEndTail ++ ty ++ dashes5 ++ [10]))
      = (c1, joinNl cs1 ++ (pemEndTail ++ ty ++ dashes5 ++ [10])) := by
    rw [show wrapLines (base64Encode data) ++ (pemEndTail ++ ty ++ dashes5 ++ [10])
        = c1 ++ 10 :: (joinNl cs1 ++ (pemEndTail ++ ty ++ dashes5 ++ [10])) by
      rw [wrapLines, hcs]
      show c1 ++ 10 :: joinNl cs1 ++ (pemEndTail ++ ty ++ dashes5 ++ [10]) = _
      simp]
    exact getLine_append _ (fun hm => (hc1good 10 hm).2.1 rfl)
      (by rw [hz]; intro he; cases he; exact hzg.2.2.1 rfl)
      (trimRightWS_eq_self (fun x hx => by
        rw [hz] at hx
        cases hx
        simp [isSpaceTab, hzg.1, hzg.2.2.2.1]))
  have hPH : parseHeaders ((wrapLines (base64Encode data)
        ++ (pemEndTail ++ ty ++ dashes5 ++ [10])).length + 1) []
        (wrapLines (base64Encode data) ++ (pemEndTail ++ ty ++ dashes5 ++ [10]))
      = some ([], wrapLines (base64Encode data)
        ++ (pemEndTail ++ ty ++ dashes5 ++ [10])) := by
    apply parseHeaders_break
    · simp [hW]
    · rw [hgl2]
      intro x hx
      exact (hc1good x hx).2.2.2.2.2
  rw [hPH]
  simp only [List.length_nil]
  have hpre : pemEndTail.isPrefixOf (wrapLines (base64Encode data)
      ++ (pemEndTail ++ ty ++ dashes5 ++ [10])) = false := by
    rw [hW, hKhead, pemEndTail_cons]
    simp only [List.cons_append, List.append_assoc]
    exact isPrefixOf_cons_ne _ _ (Ne.symm hy)
  rw [if_neg (by rw [hpre]; simp)]
  have hidx : indexOfSub pemEndFull (wrapLines (base64Encode data)
      ++ (pemEndTail ++ ty ++ dashes5 ++ [10])) = some K.length := by
    rw [hW]
    rw [show (K ++ [10]) ++ (pemEndTail ++ ty ++ dashes5 ++ [10])
        = K ++ 10 :: (pemEndTail ++ ty ++ dashes5 ++ [10]) by simp]
    exact hKidx _ (by
      rw [show pemEndTail ++ ty ++ dashes5 ++ [10]
          = pemEndTail ++ (ty ++ dashes5 ++ [10]) by simp]
      exact isPrefixOf_self_append _ _)
  simp only [hidx]
  have hdrop : List.drop (K.length + pemEndFull.length)
      (wrapLines (base64Encode data) ++ (pemEndTail ++ ty ++ dashes5 ++ [10]))
      = ty ++ dashes5 ++ [10] := by
    rw [hW]
    rw [show (K ++ [10]) ++ (pemEndTail ++ ty ++ dashes5 ++ [10])
        = (K ++ [10] ++ pemEndTail) ++ (ty ++ dashes5 ++ [10]) by simp]
    exact List.drop_left' (by simp [List.length_append, pemEndTail_len, pemEndFull_len])
  rw [hdrop]
  have htake : List.take K.length
      (wrapLines (base64Encode data) ++ (pemEndTail ++ ty ++ dashes5 ++ [10])) = K := by
    rw [hW]
    rw [show (K ++ [10]) ++ (pemEndTail ++ ty ++ dashes5 ++ [10])
        = K ++ ([10] ++ (pemEndTail ++ ty ++ dashes5 ++ [10])) by simp]
    exact List.take_left K _
  rw [htake]
  rw [if_neg (by simp [List.length_append, dashes5_len])]
  rw [show ty ++ dashes5 ++ [10] = (ty ++ dashes5) ++ [10] by simp]
  rw [@List.drop_left' Nat (ty ++ dashes5) [10] _ (by simp [List.length_append, dashes5_len]),
    @List.take_left' Nat (ty ++ dashes5) [10] _ (by simp [List.length_append, dashes5_len])]
  rw [if_neg (by simp [isPrefixOf_self_append, isSuffixOf_append_self])]
  rw [if_neg (by decide)]
  have hdec : base64DecodeLoose (removeSpacesAndTabs K) = some data := by
    unfold base64DecodeLoose removeSpacesAndTabs
    rw [List.filter_filter]
    rw [hKfilt, chunk64_join]
    exact base64_roundtrip data hdata
  simp only [hdec]
  rw [getLine_snd_last hl10]


theorem pemAttempt_encode_nil (ty : List Nat) (hty10 : 10 ∉ ty) (hty58 : 58 ∉ ty) :
    pemAttempt (ty ++ dashes5 ++ 10 :: (wrapLines (base64Encode [])
        ++ (pemEndTail ++ ty ++ dashes5 ++ [10]))) =
      .found { type := ty, headers := [], bytes := [] } [] := by
  have hW0 : wrapLines (base64Encode []) = [] := by
    rw [show base64Encode [] = [] from rfl, wrapLines, chunk64]
    simp [joinNl]
  have hl10 : 10 ∉ ty ++ dashes5 := by
    intro hm
    rcases List.mem_append.1 hm with hm | hm
    · exact hty10 hm
    · revert hm; decide
  have hlast : (ty ++ dashes5).getLast? = some 45 := by
    rw [List.getLast?_append_of_ne_nil _ (by decide)]
    decide
  have h13 : ¬ ((ty ++ dashes5).getLast? = some 13) := by rw [hlast]; decide
  have htrim : trimRightWS (ty ++ dashes5) = ty ++ dashes5 :=
    trimRightWS_eq_self (fun x hx => by
      rw [hlast] at hx
      cases hx
      decide)
  have hgl := getLine_append (r := pemEndTail ++ ty ++ dashes5 ++ [10]) hl10 h13 htrim
  rw [pemAttempt, hW0]
  rw [show ty ++ dashes5 ++ 10 :: ([] ++ (pemEndTail ++ ty ++ dashes5 ++ [10]))
      = (ty ++ dashes5) ++ 10 :: (pemEndTail ++ ty ++ dashes5 ++ [10]) by simp]
  rw [hgl]
  simp only [isSuffixOf_append_self, not_true]
  rw [if_neg (by simp)]
  have hty_take : List.take ((ty ++ dashes5).length - dashes5.length) (ty ++ dashes5) = ty :=
    List.take_left' (by simp [List.length_append, dashes5_len])
  rw [hty_take]
  -- header loop breaks on the end line, which contains no colon
  have hl10e : 10 ∉ pemEndTail ++ ty ++ dashes5 := by
    intro hm
    rcases List.mem_append.1 hm with hm | hm
    · rcases List.mem_append.1 hm with hm | hm
      · revert hm; decide
      · exact hty10 hm
    · revert hm; decide
  have hlaste : (pemEndTail ++ ty ++ dashes5).getLast? = some 45 := by
    rw [List.getLast?_append_of_ne_nil _ (by decide)]
    decide
  have hgle : getLine (pemEndTail ++ ty ++ dashes5 ++ [10])
      = (pemEndTail ++ ty ++ dashes5, []) := by
    rw [show pemEndTail ++ ty ++ dashes5 ++ [10]
        = (pemEndTail ++ ty ++ dashes5) ++ 10 :: [] by simp]
    exact getLine_append _ hl10e (by rw [hlaste]; decide)
      (trimRightWS_eq_self (fun x hx => by rw [hlaste] at hx; cases hx; decide))
  have hPH : parseHeaders ((pemEndTail ++ ty ++ dashes5 ++ [10]).length + 1) []
        (pemEndTail ++ ty ++ dashes5 ++ [10])
      = some ([], pemEndTail ++ ty ++ dashes5 ++ [10]) := by
    apply parseHeaders_break
    · simp
    · rw [hgle]
      intro x hx
      rcases List.mem_append.1 hx with hx | hx
      · rcases List.mem_append.1 hx with hx | hx
        · exact (show ∀ y ∈ pemEndTail, y ≠ 58 by decide) x hx
        · exact fun e => hty58 (e ▸ hx)
      · exact (show ∀ y ∈ dashes5, y ≠ 58 by decide) x hx
  simp only [hPH, List.length_nil]
  have hpp : pemEndTail.isPrefixOf (pemEndTail ++ ty ++ dashes5 ++ [10]) = true := by
    rw [show pemEndTail ++ ty ++ dashes5 ++ [10]
        = pemEndTail ++ (ty ++ dashes5 ++ [10]) by simp]
    exact isPrefixOf_self_append _ _
  rw [if_pos (by rw [hpp]; simp)]
  have hdropE : List.drop (pemEndFull.length - 1) (pemEndTail ++ ty ++ dashes5 ++ [10])
      = ty ++ dashes5 ++ [10] := by
    rw [show pemEndTail ++ ty ++ dashes5 ++ [10]
        = pemEndTail ++ (ty ++ dashes5 ++ [10]) by simp]
    exact List.drop_left' (by rw [pemEndTail_len, pemEndFull_len])
  simp only [hdropE]
  rw [if_neg (by simp [List.length_append, dashes5_len])]
  rw [@List.drop_left' Nat (ty ++ dashes5) [10] _ (by simp [List.length_append, dashes5_len]),
    @List.take_left' Nat (ty ++ dashes5) [10] _ (by simp [List.length_append, dashes5_len])]
  rw [if_neg (by simp [isPrefixOf_self_append, isSuffixOf_append_self])]
  rw [if_neg (by decide)]
  have hdec0 : base64DecodeLoose (removeSpacesAndTabs
      (List.take 0 (pemEndTail ++ ty ++ dashes5 ++ [10]))) = some [] := by
    rw [List.take_zero]
    rfl
  simp only [hdec0]
  have hfinal : (getLine (List.drop (0 + pemEndFull.length)
      (pemEndTail ++ ty ++ dashes5 ++ [10]))).2 = [] := by
    rw [show pemEndTail ++ ty ++ dashes5 ++ [10]
        = pemEndTail ++ (ty ++ dashes5 ++ [10]) by simp,
      show (0 + pemEndFull.length) = pemEndTail.length + 1 from rfl,
      List.drop_append 1]
    cases ty with
    | nil => decide
    | cons a ty2 =>
      rw [show (a :: ty2) ++ dashes5 ++ [10] = a :: ((ty2 ++ dashes5) ++ [10]) by simp,
        List.drop_succ_cons, List.drop_zero]
      apply getLine_snd_last
      intro hm
      rcases List.mem_append.1 hm with hm | hm
      · exact hty10 (List.mem_cons_of_mem a hm)
      · revert hm; decide
  rw [hfinal]

theorem pemAttempt_encode (ty data : List Nat) (hty10 : 10 ∉ ty) (hty58 : 58 ∉ ty)
    (hdata : ∀ b ∈ data, b < 256) :
    pemAttempt (ty ++ dashes5 ++ 10 :: (wrapLines (base64Encode data)
        ++ (pemEndTail ++ ty ++ dashes5 ++ [10]))) =
      .found { type := ty, headers := [], bytes := data } [] := by
  by_cases hne : data = []
  · subst hne
    exact pemAttempt_encode_nil ty hty10 hty58
  · exact pemAttempt_encode_pos ty data hty10 hdata hne

/-- C5: re-encoding decrypted DER bytes as a fresh header-free PEM block of
the original block's type and decoding that block yields exactly the
original bytes (and the original type), with nothing left over: the
header-stripping re-encoding step of `withPassphrase` is lossless. -/
theorem pem_reencode_roundtrip (ty data : List Nat) (hty10 : 10 ∉ ty)
    (hty58 : 58 ∉ ty) (hdata : ∀ b ∈ data, b < 256) :
    pemDecode (pemEncodeToMemory { type := ty, headers := [], bytes := data }) =
      some ({ type := ty, headers := [], bytes := data }, []) := by
  unfold pemDecode pemEncodeToMemory
  simp only [encodeHeaders, List.nil_append, List.singleton_append, List.append_assoc]
  rw [pemDecodeLoop]
  simp only [isPrefixOf_self_append, List.drop_left, if_true]
  rw [show ty ++ (dashes5 ++ (10 :: wrapLines (base64Encode data)
        ++ (pemEndTail ++ (ty ++ (dashes5 ++ [10])))))
      = ty ++ dashes5 ++ 10 :: (wrapLines (base64Encode data)
        ++ (pemEndTail ++ ty ++ dashes5 ++ [10])) by simp]
  simp only [pemAttempt_encode ty data hty10 hty58 hdata]

/-- Inversion of a successful configuration assembly: the parse succeeded,
the CA path was nonempty and readable, the CA append added at least one
certificate, the identity loaded, and the returned configuration is the
assembled record. -/
theorem assembleConfig_ok_inv {env : Env} {c : ConfigMap} {fn : AfterConnectFunc}
    {cfg : PoolConfig} (h : assembleConfig env c fn = .ok cfg) :
    ∃ parsed caCert cert,
      env.parseConfig (connString c) = .ok parsed ∧
      ¬ (c.SSLCAFile = "") ∧
      env.files c.SSLCAFile = some caCert ∧
      (appendCertsFromPEM env.parseCert newCertPool caCert).2 = true ∧
      withPassphrase env c.SSLCertFile c.SSLKeyFile (strBytes c.SSLKeyFilePassPhrase)
        = .ok cert ∧
      cfg = { parsed := parsed, afterConnect := fn,
              dialFunc := fun _ host addr => env.netDial host addr,
              preferSimpleProtocol := true, connectTimeout := timeMinute,
              tlsConfig := some (
                if c.SSLHostname ≠ "" then
                  { certificates := [cert],
                    rootCAs := some (appendCertsFromPEM env.parseCert newCertPool caCert).1,
                    serverName := c.SSLHostname }
                else
                  { certificates := [cert],
                    rootCAs := some (appendCertsFromPEM env.parseCert newCertPool caCert).1,
                    insecureSkipVerify := true }) } := by
  unfold assembleConfig at h
  split at h
  · exact absurd h (by simp)
  · next parsed hp =>
    split at h
    · exact absurd h (by simp)
    · next hca =>
      split at h
      · exact absurd h (by simp)
      · next caCert hread =>
        split at h
        · exact absurd h (by simp)
        · next hap =>
          split at h
          · exact absurd h (by simp)
          · exact absurd h (by simp)
          · next cert hwp =>
            refine ⟨parsed, caCert, cert, hp, hca, hread, ?_, hwp, ?_⟩
            · simpa using hap
            · simp only [GoRes.ok.injEq] at h
              subst h
              rfl

/-- C2: whenever `NewFromCfgMap` assembles a configuration, the TLS
configuration presents exactly one client certificate; with a nonempty
expected hostname it sets `ServerName` to it and leaves
`InsecureSkipVerify` off, and with an empty hostname it sets
`InsecureSkipVerify`. -/
theorem assembleConfig_tls_verification_policy (env : Env) (c : ConfigMap)
    (fn : AfterConnectFunc) (cfg : PoolConfig)
    (h : assembleConfig env c fn = .ok cfg) :
    ∃ t, cfg.tlsConfig = some t ∧ t.certificates.length = 1 ∧
      (¬ (c.SSLHostname = "") →
        t.serverName = c.SSLHostname ∧ t.insecureSkipVerify = false) ∧
      (c.SSLHostname = "" → t.insecureSkipVerify = true) := by
  obtain ⟨parsed, caCert, cert, _, _, _, _, _, hcfg⟩ := assembleConfig_ok_inv h
  subst hcfg
  by_cases hh : c.SSLHostname = ""
  · refine ⟨_, by rw [if_neg (not_not_intro hh)], ?_, ?_, ?_⟩
    · rfl
    · exact fun hne => absurd hh hne
    · exact fun _ => rfl
  · refine ⟨_, by rw [if_pos hh], ?_, ?_, ?_⟩
    · rfl
    · exact fun _ => ⟨rfl, rfl⟩
    · exact fun he => absurd he hh

/-- Witness for C2 at a concrete successful run with a nonempty expected
hostname. -/
theorem assembleConfig_tls_verification_policy_witness :
    ∃ t, happyCfg.tlsConfig = some t ∧ t.certificates.length = 1 ∧
      (¬ (cfgHost.SSLHostname = "") →
        t.serverName = cfgHost.SSLHostname ∧ t.insecureSkipVerify = false) ∧
      (cfgHost.SSLHostname = "" → t.insecureSkipVerify = true) :=
  assembleConfig_tls_verification_policy happyEnv cfgHost fn0 happyCfg (by rfl)

/-- C10: the installed per-connection dial function ignores its context
argument; it performs the same plain `net.Dial` for every context. -/
theorem dialFunc_ignores_context (env : Env) (c : ConfigMap)
    (fn : AfterConnectFunc) (cfg : PoolConfig)
    (h : assembleConfig env c fn = .ok cfg)
    (ctx1 ctx2 : Ctx) (net addr : String) :
    cfg.dialFunc ctx1 net addr = cfg.dialFunc ctx2 net addr ∧
    cfg.dialFunc ctx1 net addr = env.netDial net addr := by
  obtain ⟨parsed, caCert, cert, _, _, _, _, _, hcfg⟩ := assembleConfig_ok_inv h
  subst hcfg
  exact ⟨rfl, rfl⟩

/-- Witness for C10 at a concrete successful run and two distinct
contexts. -/
theorem dialFunc_ignores_context_witness :
    happyCfg.dialFunc 0 ("tcp") ("h:5432") = happyCfg.dialFunc 1 ("tcp") ("h:5432") ∧
    happyCfg.dialFunc 0 ("tcp") ("h:5432") = happyEnv.netDial ("tcp") ("h:5432") :=
  dialFunc_ignores_context happyEnv cfgHost fn0 happyCfg (by rfl) 0 1 ("tcp") ("h:5432")

/-- C5 witness: the round-trip at the type `RSA PRIVATE KEY` and three
concrete key bytes. -/
theorem pem_reencode_roundtrip_witness :
    pemDecode (pemEncodeToMemory
        { type := strBytes ("RSA PRIVATE KEY"), headers := [], bytes := [1, 2, 3] }) =
      some ({ type := strBytes ("RSA PRIVATE KEY"), headers := [], bytes := [1, 2, 3] },
        []) :=
  pem_reencode_roundtrip (strBytes ("RSA PRIVATE KEY")) [1, 2, 3]
    (by decide) (by decide) (by decide)

/-- C7: for a nonempty CA path the trust store is built from the file
alone — the result does not depend on the system trust store in any way —
and when the bundle yields zero valid certificates the initializer fails
with the append error; on success the TLS configuration's root CAs are
exactly the pool built from the file. -/
theorem trust_store_from_ca_file (env : Env) (c : ConfigMap) (fn : AfterConnectFunc)
    (content : List Nat) (hca : ¬ (c.SSLCAFile = ""))
    (hread : env.files c.SSLCAFile = some content) :
    (∀ sys, assembleConfig { env with systemCertPool := sys } c fn
        = assembleConfig env c fn) ∧
    (∀ parsed, env.parseConfig (connString c) = .ok parsed →
      (appendCertsFromPEM env.parseCert newCertPool content).2 = false →
      NewFromCfgMap env c fn = .err .caAppend) ∧
    (∀ cfg, assembleConfig env c fn = .ok cfg →
      ∃ t, cfg.tlsConfig = some t ∧
        t.rootCAs = some (appendCertsFromPEM env.parseCert newCertPool content).1) := by
  refine ⟨?_, ?_, ?_⟩
  · intro sys
    unfold assembleConfig
    simp only [show ({ env with systemCertPool := sys } : Env).parseConfig
        = env.parseConfig from rfl,
      show ({ env with systemCertPool := sys } : Env).files = env.files from rfl,
      show ({ env with systemCertPool := sys } : Env).parseCert = env.parseCert from rfl,
      show withPassphrase { env with systemCertPool := sys } = withPassphrase env from rfl,
      show ({ env with systemCertPool := sys } : Env).netDial = env.netDial from rfl]
    simp only [if_neg hca]
  · intro parsed hp hap
    unfold NewFromCfgMap assembleConfig
    simp only [hp, if_neg hca, hread, hap]
    simp
  · intro cfg h
    obtain ⟨parsed, caCert, cert, _, _, hread2, _, _, hcfg⟩ := assembleConfig_ok_inv h
    rw [hread] at hread2
    have hcc : content = caCert := by injection hread2
    subst hcc
    subst hcfg
    by_cases hh : c.SSLHostname = ""
    · exact ⟨_, by rw [if_neg (not_not_intro hh)], rfl⟩
    · exact ⟨_, by rw [if_pos hh], rfl⟩

/-- C7 witness at a concrete environment whose CA file holds one valid
certificate. -/
theorem trust_store_from_ca_file_witness :
    (∀ sys, assembleConfig { happyEnv with systemCertPool := sys } cfgHost fn0
        = assembleConfig happyEnv cfgHost fn0) ∧
    (∀ parsed, happyEnv.parseConfig (connString cfgHost) = .ok parsed →
      (appendCertsFromPEM happyEnv.parseCert newCertPool caPemBytes).2 = false →
      NewFromCfgMap happyEnv cfgHost fn0 = .err .caAppend) ∧
    (∀ cfg, assembleConfig happyEnv cfgHost fn0 = .ok cfg →
      ∃ t, cfg.tlsConfig = some t ∧
        t.rootCAs = some (appendCertsFromPEM happyEnv.parseCert newCertPool caPemBytes).1) :=
  trust_store_from_ca_file happyEnv cfgHost fn0 caPemBytes (by decide) (by rfl)

/-- C1 (code bug in the source): with an empty CA path, `NewFromCfgMap`
returns the wrapped system-pool error unconditionally — here evaluated in
an environment whose system trust store is available (`sysPoolWrap false`
records that the wrapped error was nil), where the claim says trust-store
construction succeeds. -/
theorem newFromCfgMap_empty_ca_errors_despite_usable_system_pool :
    envSysPoolOk.systemCertPool = .ok newCertPool ∧
    NewFromCfgMap envSysPoolOk cfgEmptyCA fn0 = .err (.sysPoolWrap false) :=
  ⟨rfl, by decide⟩

/-- C3 (code bug in the source): a key file in which no PEM block can be
found makes `pem.Decode` return a nil block, and `withPassphrase` passes
that nil block straight into `x509.DecryptPEMBlock`, which dereferences
it — a panic, not the `FormatError` return the claim describes. -/
theorem withPassphrase_panics_when_no_pem_block :
    pemDecode junkKeyBytes = none ∧
    withPassphrase envNoPemKey ("cert.pem") ("key.pem") (strBytes ("pw")) = .panicked :=
  ⟨by decide, by decide⟩

/-- C6 (code bug in the source): a full `NewFromCfgMap` run with a valid
CA bundle but a key file lacking any PEM block ends in a panic, so not
every failure of the initializer is returned to the caller as a nil pool
with a non-nil error. -/
theorem newFromCfgMap_panics_on_key_without_pem_block :
    NewFromCfgMap envNoPemKey cfgHost fn0 = .panicked := by decide

/-- C4: whenever the decryption step fails — wrong passphrase detected by
the padding check, or an unrecognized encrypted-key format — the identity
loader returns exactly that error and no identity. -/
theorem withPassphrase_decrypt_failure_yields_error (env : Env)
    (cp kp : String) (pw keyFile certFile : List Nat)
    (b : Block) (rest : List Nat) (e : GoErr)
    (hk : env.files kp = some keyFile) (hc : env.files cp = some certFile)
    (hd : pemDecode keyFile = some (b, rest))
    (he : decryptPEMBlock env b pw = .error e) :
    withPassphrase env cp kp pw = .err e := by
  unfold withPassphrase
  simp only [hk, hc, hd, he]

/-- C4 witness: a concrete run in which the cipher oracle's output fails
the padding check, as happens under a wrong passphrase. -/
theorem withPassphrase_decrypt_failure_yields_error_witness :
    withPassphrase envWrongPw ("cert.pem") ("key.pem") (strBytes ("pw"))
      = .err .incorrectPassword :=
  withPassphrase_decrypt_failure_yields_error envWrongPw ("cert.pem") ("key.pem")
    (strBytes ("pw")) keyPemEncBytes certFileBytes
    { type := strBytes ("X"),
      headers := [(strBytes ("DEK-Info"), strBytes ("DES-CBC,0102030405060708"))],
      bytes := [0, 0, 0, 0, 0, 0, 0, 0] } [] .incorrectPassword
    (by rfl) (by rfl) (by rfl) (by rfl)

/-- C8: the identity loader always attempts decryption with the passphrase
it was given — for a key file whose PEM block carries no `DEK-Info` header
(an unencrypted key), the decrypt step fails and the loader reports the
error to the caller instead of passing the key through, for every
passphrase including the empty one. -/
theorem withPassphrase_always_attempts_decryption (env : Env)
    (cp kp : String) (pw keyFile certFile : List Nat)
    (b : Block) (rest : List Nat)
    (hk : env.files kp = some keyFile) (hc : env.files cp = some certFile)
    (hd : pemDecode keyFile = some (b, rest))
    (hdek : lookupHeader b.headers dekInfoKey = none) :
    withPassphrase env cp kp pw = .err .noDekInfo := by
  unfold withPassphrase decryptPEMBlock
  simp only [hk, hc, hd, hdek]

/-- C8 witness: an unencrypted key file and the empty passphrase — the
decrypt step still runs and its failure is returned. -/
theorem withPassphrase_always_attempts_decryption_witness :
    withPassphrase envPlainKey ("cert.pem") ("key.pem") [] = .err .noDekInfo :=
  withPassphrase_always_attempts_decryption envPlainKey ("cert.pem") ("key.pem") []
    keyPemPlainBytes certFileBytes
    { type := strBytes ("X"), headers := [], bytes := [0, 0, 0] } []
    (by rfl) (by rfl) (by rfl) (by rfl)

/-- C9 counterexample: a descriptor whose database name is absent (with
every other field present) passes validation, so validation does not
accept exactly the descriptors with all non-optional fields present. -/
theorem validate_accepts_missing_required_field :
    cfgMissingDbName.DbName = "" ∧ cfgMissingDbName.validate = none :=
  ⟨rfl, rfl⟩

/-- C9 (amended): validation accepts every descriptor — the struct's tags
use the key `validate`, which govalidator does not read (it reads `valid`),
so no field at all is enforced. -/
theorem validate_accepts_every_config (c : ConfigMap) : c.validate = none := rfl
